import Mathlib

/-!
Verification of the core of the ecfr-analyzer repository: the concurrent
task orchestrator (server/concurrent/runner.go) and the CFR structural
document parser (server/parser/cfr_parser.go) together with the parent
linkage pass (server/service/CfrStructureService.go).

The Go code is shallowly embedded:

* Pure computations (path building, word counting, attribute extraction,
  parent-path truncation) become Lean functions over `String`/`List`.
* The XML token stream produced by `encoding/xml.Decoder` (library code,
  not part of the repository) is modelled as a list of tokens followed by
  a terminal condition: `malformed = true` means the tokenizer ends with
  an error instead of a clean EOF.  Once the Go decoder reports an error
  it keeps reporting it, so an error can only sit at the end of the
  stream.
* The recursive descent of `parseDivElement` consumes the token list and
  returns the unconsumed suffix; recursion is bounded by a fuel
  parameter.  Fuel exhaustion behaves exactly like the `err != nil`
  branches of the Go loops (which `break`), and `Parse` supplies fuel
  `2 * tokens.length + 2`, ample for every execution the Go code can
  perform on that stream.
* `Runner.Run`'s channel fan-out/fan-in is modelled twice, both times
  from runner.go: a functional aggregate (the multiset of values each
  worker sends on the `results`/`errors` channels, drained into two
  lists; aggregate counts do not depend on the goroutine interleaving)
  and a labelled transition system for the permit/throttle discipline of
  lines 87-116 (acquire a slot before the goroutine is spawned, release
  it when the worker returns).
-/

/-! ### Concurrent runner: data (runner.go) -/

/-- `RunnerConfig` (runner.go:14-17).  `MaxConcurrency` is a Go `int`,
hence modelled as `Int`; `0` is documented as unlimited concurrency. -/
structure RunnerConfig where
  MaxConcurrency : Int
  LogPrefix : String
deriving Repr, DecidableEq

/-- `NewRunner` (runner.go:25-32).  The runner only stores its
configuration, so the runner itself is modelled by the stored
configuration.  The only normalisation performed is defaulting the log
prefix; `MaxConcurrency` is not validated. -/
def NewRunner (config : RunnerConfig) : RunnerConfig :=
  if config.LogPrefix = "" then { config with LogPrefix := "Runner" } else config

/-- One value sent by a worker on one of the three channels of
`WorkerFunc` (runner.go:11): a progress message, a result, or an error.
Go `error` values are modelled by their message strings. -/
inductive Emit (R : Type) where
  | msg (s : String)
  | res (r : R)
  | err (e : String)
deriving Repr, DecidableEq

/-- Projection used by the `results` collector goroutine
(runner.go:66-71): only `results`-channel sends are appended. -/
def Emit.res? {R : Type} : Emit R → Option R
  | .res r => some r
  | _ => none

/-- Projection used by the `errors` collector goroutine
(runner.go:77-82): only `errors`-channel sends are appended. -/
def Emit.err? {R : Type} : Emit R → Option String
  | .err e => some e
  | _ => none

/-- `RunResult` (runner.go:35-38). -/
structure RunResult (R : Type) where
  Results : List R
  Errors : List String
deriving Repr, DecidableEq

/-- `Runner.Run` (runner.go:42-130).  A worker is a function from an item
to the sequence of values it sends on the three channels.  The collector
goroutines drain every send into `resultsList` / `errorsList`; the final
aggregate contains exactly the sends of all workers.  The model fixes the
serial interleaving (item order); the Go interleaving is a permutation of
it, which leaves the aggregate lengths (the subject of the claims about
`Run`) unchanged.  The empty-input early return is runner.go:43-48. -/
def Runner.Run {T R : Type} (_r : RunnerConfig) (items : List T)
    (worker : T → List (Emit R)) : RunResult R :=
  if items.isEmpty then
    { Results := [], Errors := [] }
  else
    let stream := items.flatMap worker
    { Results := stream.filterMap Emit.res?
      Errors := stream.filterMap Emit.err? }

/-- Number of outcomes (results-channel sends plus errors-channel sends)
in one worker's emission sequence. -/
def outcomeCount {R : Type} (l : List (Emit R)) : Nat :=
  (l.filterMap Emit.res?).length + (l.filterMap Emit.err?).length

/-! ### Concurrent runner: throttle transition system (runner.go:87-116)

Each input item passes through the phases of the dispatch loop: not yet
reached by the `for _, item := range items` loop (`undispatched`); permit
acquired by `throttle <- 1` and goroutine spawned, `worker` not yet
entered (`spawned`); `worker(item, ...)` executing (`executing`);
returned, with the deferred `<-throttle` release performed (`finished`).
A permit is held from the `throttle <- 1` in the main loop until the
deferred release, i.e. during the `spawned` and `executing` phases.  With
`MaxConcurrency = C > 0` the throttle channel has capacity `C`, so the
send blocks while `C` permits are held; with `C ≤ 0` no throttle channel
exists and dispatch is never blocked. -/

/-- Phase counts of one run of `Runner.Run`. -/
structure RunnerLtsState where
  undispatched : Nat
  spawned : Nat
  executing : Nat
  finished : Nat
deriving Repr, DecidableEq

/-- Number of throttle permits currently held: one per item that has
passed `throttle <- 1` and not yet executed its deferred release. -/
def permitsHeld (s : RunnerLtsState) : Nat :=
  s.spawned + s.executing

/-- State before the dispatch loop starts: `n` items, nothing running. -/
def initState (n : Nat) : RunnerLtsState :=
  { undispatched := n, spawned := 0, executing := 0, finished := 0 }

/-- One atomic step of the run.  `dispatch` is the main loop body
(runner.go:94-113): it may fire only when the throttle send succeeds,
i.e. when fewer than `C` permits are held (no constraint when `C ≤ 0`,
where no throttle exists).  `start` is the scheduler entering
`worker(item, ...)` in the spawned goroutine; `finish` is the worker
returning, with `workersWg.Done` and the deferred permit release. -/
inductive RunnerStep (C : Int) : RunnerLtsState → RunnerLtsState → Prop
  | dispatch (s : RunnerLtsState) :
      0 < s.undispatched →
      (0 < C → (permitsHeld s : Int) < C) →
      RunnerStep C s
        { undispatched := s.undispatched - 1, spawned := s.spawned + 1,
          executing := s.executing, finished := s.finished }
  | start (s : RunnerLtsState) :
      0 < s.spawned →
      RunnerStep C s
        { undispatched := s.undispatched, spawned := s.spawned - 1,
          executing := s.executing + 1, finished := s.finished }
  | finish (s : RunnerLtsState) :
      0 < s.executing →
      RunnerStep C s
        { undispatched := s.undispatched, spawned := s.spawned,
          executing := s.executing - 1, finished := s.finished + 1 }

/-- States reachable during a run of `Runner.Run` over `n` items with
`MaxConcurrency = C`. -/
inductive RunnerReachable (C : Int) (n : Nat) : RunnerLtsState → Prop
  | init : RunnerReachable C n (initState n)
  | step {s t : RunnerLtsState} :
      RunnerReachable C n s → RunnerStep C s t → RunnerReachable C n t

/-! ### CFR parser: data model (cfr_parser.go, data package) -/

/-- `data.CfrStructure` — the flattened structural record.  Persistence
artefacts (`Id`, `CreatedAt`) play no role in parsing or linkage and are
omitted; `InternalId` (the storage key used by the linkage pass) is kept
with its Go zero value `0` at parse time.  `DivLevel` and `WordCount`
are Go `int`s whose values are provably non-negative (a byte difference
mod 256 and a slice length), hence `Nat`. -/
structure CfrStructure where
  InternalId : Int
  TitleId : Int
  TitleNumber : Int
  DivType : String
  DivLevel : Nat
  Identifier : String
  NodeId : Option String
  Heading : Option String
  TextContent : Option String
  WordCount : Nat
  ParentId : Option Int
  Path : String
deriving Repr, DecidableEq, Inhabited

/-- `CfrParser` (cfr_parser.go:23-26). -/
structure CfrParser where
  titleId : Int
  titleNumber : Int
deriving Repr, DecidableEq

/-- `NewCfrParser` (cfr_parser.go:29-34). -/
def NewCfrParser (titleId : Int) (titleNumber : Int) : CfrParser :=
  { titleId := titleId, titleNumber := titleNumber }

/-- `ParseResult` (cfr_parser.go:37-40). -/
structure ParseResult where
  Structures : List CfrStructure
  TotalWords : Nat
deriving Repr, DecidableEq

/-- One token of `encoding/xml.Decoder.Token()`: a start element with its
local name and attributes (local attribute names paired with values), an
end element with its local name, or character data.  Tokens the parser
never inspects (comments, directives, processing instructions) need no
constructor of their own: they would fall into the ignored branches the
same way a non-matching token does, so omitting them loses no behaviour
visible to the embedded code. -/
inductive Token where
  | start (name : String) (attrs : List (String × String))
  | endE (name : String)
  | chars (s : String)
deriving Repr, DecidableEq

/-- The tokenized form of one document text: the tokens the decoder
yields, and whether the stream terminates with a tokenizer error
(`malformed = true`: syntax errors, including the "unexpected EOF" the
Go decoder reports for unterminated elements) or a clean `io.EOF`
(`malformed = false`).  The Go decoder caches its first error and
returns it from then on, so an error can only terminate the stream. -/
structure TokenizedDoc where
  tokens : List Token
  malformed : Bool
deriving Repr, DecidableEq

/-! ### CFR parser: helper functions -/

/-- Go `strings.TrimSpace`: drop leading and trailing whitespace.  Go
trims `unicode.IsSpace` runes; on the ASCII whitespace the parser's
claims exercise this coincides with `Char.isWhitespace`. -/
def goTrim (s : String) : String :=
  String.mk (((s.data.dropWhile (fun c => c.isWhitespace)).reverse.dropWhile
    (fun c => c.isWhitespace)).reverse)

/-- Accumulator loop for `strings.Fields`: maximal runs of
non-whitespace characters. -/
def goFieldsAux : List Char → List Char → List (List Char)
  | [], acc => if acc = [] then [] else [acc.reverse]
  | c :: rest, acc =>
      if c.isWhitespace then
        if acc = [] then goFieldsAux rest []
        else acc.reverse :: goFieldsAux rest []
      else goFieldsAux rest (c :: acc)

/-- Go `strings.Fields`: the whitespace-separated fields of a string. -/
def goFields (s : String) : List String :=
  (goFieldsAux s.data []).map String.mk

/-- Go `len` on a string: its UTF-8 byte length. -/
def goByteLen (s : String) : Nat :=
  (s.data.map (fun c => c.utf8Size)).sum

/-- `countWords` (cfr_parser.go:249-256): `strings.Fields` splits on
whitespace runs and drops empty fields. -/
def countWords (text : String) : Nat :=
  if text = "" then 0 else (goFields text).length

/-- Path building of `parseDivElement` (cfr_parser.go:103-108):
`path := parentPath; if path != "" { path += "/" }; path += identifier`. -/
def mkPath (parentPath : String) (identifier : String) : String :=
  if parentPath = "" then identifier else parentPath ++ "/" ++ identifier

/-- Attribute extraction of cfr_parser.go:92-101: the Go `for` loop over
`startElement.Attr` assigns on every match, so the last attribute with a
given local name wins; absent attributes leave the zero value. -/
def lookupAttrLast (attrs : List (String × String)) (key : String) : Option String :=
  attrs.foldl (fun acc kv => if kv.1 = key then some kv.2 else acc) none

/-- The `N` attribute, defaulted to the Go zero value `""`. -/
def divIdentifier (attrs : List (String × String)) : String :=
  (lookupAttrLast attrs "N").getD ""

/-- The hierarchy-element test of cfr_parser.go:61 and cfr_parser.go:150:
`strings.HasPrefix(name, "DIV") && len(name) == 4`.  Go `len` is the
byte length of the name. -/
def isHierarchyTag (name : String) : Bool :=
  (name.data.take 3 = "DIV".data) && goByteLen name = 4

/-- `int(name[3] - '0')` (cfr_parser.go:62,152): byte subtraction wraps
modulo 256.  Under `isHierarchyTag` the first three bytes are `DIV`, so
a 4-byte name has an ASCII fourth byte, equal to its fourth character. -/
def divLevelOf (name : String) : Nat :=
  ((name.toList.getD 3 ' ').toNat + 256 - 48) % 256

/-- The `HEAD` branch of `parseDivElement` (cfr_parser.go:131-149): read
tokens until the `HEAD` end element (or a token error, i.e. stream
exhaustion in the model), concatenating character data. -/
def readHead : List Token → String × List Token
  | [] => ("", [])
  | .endE name :: rest =>
      if name = "HEAD" then ("", rest)
      else readHead rest
  | .start _ _ :: rest => readHead rest
  | .chars s :: rest =>
      let r := readHead rest
      (s ++ r.1, r.2)

/-- `extractTextContent` (cfr_parser.go:217-246): consume tokens until
the end element matching `startName`, recursing into nested elements,
appending each non-empty trimmed character-data fragment plus a space to
the builder.  `fuel` bounds the recursion; exhaustion behaves like the
`err != nil { break }` branch. -/
def extractTextContent (startName : String) : Nat → List Token → String → String × List Token
  | 0, ts, b => (b, ts)
  | _ + 1, [], b => (b, [])
  | f + 1, .endE name :: rest, b =>
      if name = startName then (b, rest)
      else extractTextContent startName f rest b
  | f + 1, .start name _ :: rest, b =>
      let r := extractTextContent name f rest b
      extractTextContent startName f r.2 r.1
  | f + 1, .chars s :: rest, b =>
      let tx := goTrim s
      extractTextContent startName f rest (if tx = "" then b else b ++ tx ++ " ")
termination_by structural f _ _ => f

/-- Construction of the `data.CfrStructure` literal at
cfr_parser.go:174-195 from the collected pieces of one `DIV` element. -/
def buildStructure (p : CfrParser) (attrs : List (String × String)) (divLevel : Nat)
    (parentId : Option Int) (path : String) (heading : Option String)
    (buf : String) : CfrStructure :=
  let text := goTrim buf
  { InternalId := 0
    TitleId := p.titleId
    TitleNumber := p.titleNumber
    DivType := (lookupAttrLast attrs "TYPE").getD ""
    DivLevel := divLevel
    Identifier := divIdentifier attrs
    NodeId := lookupAttrLast attrs "NODE"
    Heading := heading
    TextContent := if text = "" then none else some text
    WordCount := countWords text
    ParentId := parentId
    Path := path }

/-- Final assembly of `parseDivElement` (cfr_parser.go:174-213): the
flattened output is the element's own record followed by the flattened
child records, and the cumulative count is the element's own word count
plus the word counts of the flattened children. -/
def assembleDiv (p : CfrParser) (attrs : List (String × String)) (divLevel : Nat)
    (parentId : Option Int) (path : String) (heading : Option String) (buf : String)
    (children : List CfrStructure) (rest : List Token) :
    List CfrStructure × Nat × List Token :=
  let st := buildStructure p attrs divLevel parentId path heading buf
  (st :: children, st.WordCount + (children.map (fun c => c.WordCount)).sum, rest)

mutual

/-- The content loop of `parseDivElement` (cfr_parser.go:116-172),
returning the heading, the text builder, the accumulated flattened child
structures and the unconsumed tokens.  Branches in source order: token
error (stream/fuel exhaustion) breaks; the matching end element breaks;
a `HEAD` start element is read by the inner head loop; a nested
hierarchy element is parsed recursively with the current `path` as its
parent path (its cumulative word count is discarded, as in
`childDivs, _ :=`); any other start element feeds `extractTextContent`;
character data outside `HEAD` is trimmed and appended. -/
def parseDivLoop (p : CfrParser) (startName : String) (path : String) :
    Nat → List Token → Option String → String → List CfrStructure →
    Option String × String × List CfrStructure × List Token
  | 0, ts, h, b, cs => (h, b, cs, ts)
  | _ + 1, [], h, b, cs => (h, b, cs, [])
  | f + 1, .endE name :: rest, h, b, cs =>
      if name = startName then (h, b, cs, rest)
      else parseDivLoop p startName path f rest h b cs
  | f + 1, .start name attrs :: rest, h, b, cs =>
      if name = "HEAD" then
        let hr := readHead rest
        parseDivLoop p startName path f hr.2 (some (goTrim hr.1)) b cs
      else if isHierarchyTag name then
        let pr := parseDivElement p name attrs (divLevelOf name) none path f rest
        parseDivLoop p startName path f pr.2.2 h b (cs ++ pr.1)
      else
        let er := extractTextContent name f rest b
        parseDivLoop p startName path f er.2 h er.1 cs
  | f + 1, .chars s :: rest, h, b, cs =>
      let tx := goTrim s
      parseDivLoop p startName path f rest h (if tx = "" then b else b ++ tx ++ " ") cs
termination_by structural f _ _ _ _ => f

/-- `parseDivElement` (cfr_parser.go:79-214): extract attributes, build
the path, run the content loop, assemble the record.  At fuel 0 the
content loop contributes nothing, matching an immediate token error. -/
def parseDivElement (p : CfrParser) (startName : String)
    (attrs : List (String × String)) (divLevel : Nat) (parentId : Option Int)
    (parentPath : String) :
    Nat → List Token → List CfrStructure × Nat × List Token
  | 0, tokens =>
      assembleDiv p attrs divLevel parentId (mkPath parentPath (divIdentifier attrs))
        none "" [] tokens
  | f + 1, tokens =>
      let path := mkPath parentPath (divIdentifier attrs)
      let lr := parseDivLoop p startName path f tokens none "" []
      assembleDiv p attrs divLevel parentId path lr.1 lr.2.1 lr.2.2.1 lr.2.2.2
termination_by structural f _ => f

end

/-- The document loop of `Parse` (cfr_parser.go:50-70): a clean EOF ends
the loop successfully, a decoder error aborts the whole parse with
`error parsing XML` (the accumulator is discarded, cfr_parser.go:56),
and every hierarchy start element is parsed and appended.  Fuel
exhaustion is modelled as the error branch; `CfrParser.Parse` supplies
fuel no run can consume. -/
def parseLoop (p : CfrParser) :
    Nat → List Token → Bool → List CfrStructure → Nat →
    Except String (List CfrStructure × Nat)
  | 0, _, _, _, _ => .error "error parsing XML"
  | _ + 1, [], malformed, acc, accWords =>
      if malformed then .error "error parsing XML" else .ok (acc, accWords)
  | f + 1, .start name attrs :: rest, malformed, acc, accWords =>
      if isHierarchyTag name then
        let pr := parseDivElement p name attrs (divLevelOf name) none "" f rest
        parseLoop p f pr.2.2 malformed (acc ++ pr.1) (accWords + pr.2.1)
      else parseLoop p f rest malformed acc accWords
  | f + 1, .endE _ :: rest, malformed, acc, accWords =>
      parseLoop p f rest malformed acc accWords
  | f + 1, .chars _ :: rest, malformed, acc, accWords =>
      parseLoop p f rest malformed acc accWords
termination_by structural f _ _ _ _ => f

/-- `CfrParser.Parse` (cfr_parser.go:43-76). -/
def CfrParser.Parse (p : CfrParser) (doc : TokenizedDoc) : Except String ParseResult :=
  match parseLoop p (2 * doc.tokens.length + 2) doc.tokens doc.malformed [] 0 with
  | .ok r => .ok { Structures := r.1, TotalWords := r.2 }
  | .error e => .error e

/-! ### Parent linkage pass (CfrStructureService.go) -/

/-- `getParentPath` (CfrStructureService.go:143-150) scans the path
bytes from the end for `'/'` and returns the prefix before the last one,
or `""`.  `'/'` is ASCII, so the byte scan coincides with this character
scan on the UTF-8 strings Go holds.  `lastSlashPrefix` returns the
prefix before the last slash, or `none` when no slash occurs. -/
def lastSlashPrefix : List Char → Option (List Char)
  | [] => none
  | c :: rest =>
      match lastSlashPrefix rest with
      | some pre => some (c :: pre)
      | none => if c = '/' then some [] else none

/-- `getParentPath` (CfrStructureService.go:143-150). -/
def getParentPath (path : String) : String :=
  match lastSlashPrefix path.toList with
  | some pre => String.mk pre
  | none => ""

/-- First pass of `processTitle` (CfrStructureService.go:116-119): build
the path-to-structure map.  A Go map assignment overwrites, so the last
structure with a given path wins; consing onto the front and using
first-match lookup models exactly that. -/
def buildPathMap (structures : List CfrStructure) : List (String × CfrStructure) :=
  structures.foldl (fun m s => (s.Path, s) :: m) []

/-- Second pass of `processTitle`, per node (CfrStructureService.go:
122-130): truncate the path, and when the truncation is non-empty and
present in the map, point `ParentId` at that structure's `InternalId`. -/
def linkNode (pathMap : List (String × CfrStructure)) (s : CfrStructure) : CfrStructure :=
  let parentPath := getParentPath s.Path
  if parentPath ≠ "" then
    match pathMap.lookup parentPath with
    | some parent => { s with ParentId := some parent.InternalId }
    | none => s
  else s

/-- The whole parent-linkage pass of `processTitle`
(CfrStructureService.go:113-136), as a function of the flattened list.
The Go code mutates each structure in place; the map reads only `Path`
and `InternalId`, which the pass never changes, so mapping `linkNode`
over the list is equivalent. -/
def linkParents (structures : List CfrStructure) : List CfrStructure :=
  structures.map (linkNode (buildPathMap structures))

/-! ### Spec-side definitions

These two definitions follow the specification's words, not the source;
they exist to be compared with the source-derived path construction. -/

/-- Modelled from the spec: "`path == i1 + sep + i2 + ... + sep +
i_{k+1}`" — joining a list of identifiers with a separator. -/
def joinSep (sep : String) : List String → String
  | [] => ""
  | x :: xs => xs.foldl (fun acc y => acc ++ sep ++ y) x

/-- `s` carries a non-empty chain of identifiers `ids` grown from the
base path `base` by the source's `mkPath`, ending at its own
`Identifier`.  The chain produced by the parser for a node consists of
the identifiers of its ancestor hierarchy elements (outermost first)
followed by its own, because `parseDivLoop` hands the parent's `path`
to each nested `parseDivElement` call. -/
def ChainFrom (base : String) (s : CfrStructure) : Prop :=
  ∃ ids : List String, ids ≠ [] ∧ ids.getLast? = some s.Identifier ∧
    s.Path = ids.foldl mkPath base

/-! ### Concrete instances used in witnesses and counterexamples -/

/-- `NewCfrParser(1, 1)`. -/
def pEx : CfrParser := NewCfrParser 1 1

/-- A worker that succeeds on item `1` and fails on every other item,
sending exactly one outcome either way. -/
def wEx : Nat → List (Emit Nat) :=
  fun n => [Emit.msg "processing", if n = 1 then Emit.res n else Emit.err "boom"]

/-- Spec scenario 1: one top-level element, body text of three words. -/
def docSimple : TokenizedDoc :=
  { tokens := [.start "DIV1" [("N", "1"), ("TYPE", "TITLE")],
               .chars "Lorem ipsum dolor", .endE "DIV1"],
    malformed := false }

/-- The record `Parse pEx docSimple` produces. -/
def stSimple : CfrStructure :=
  { InternalId := 0, TitleId := 1, TitleNumber := 1, DivType := "TITLE",
    DivLevel := 1, Identifier := "1", NodeId := none, Heading := none,
    TextContent := some "Lorem ipsum dolor", WordCount := 3,
    ParentId := none, Path := "1" }

/-- The result of `Parse pEx docSimple`. -/
def resSimple : ParseResult := { Structures := [stSimple], TotalWords := 3 }

/-- A `DIV1` with an empty identifier (no `N` attribute) containing a
`DIV2` with identifier `A`: the inner node's ancestor chain is
`["", "A"]`. -/
def docNested : TokenizedDoc :=
  { tokens := [.start "DIV1" [], .start "DIV2" [("N", "A")],
               .endE "DIV2", .endE "DIV1"],
    malformed := false }

/-- Spec scenario 2 (without body text): `DIV1` with identifier `1`
containing a `DIV2` with identifier `A`. -/
def docNested2 : TokenizedDoc :=
  { tokens := [.start "DIV1" [("N", "1")], .start "DIV2" [("N", "A")],
               .endE "DIV2", .endE "DIV1"],
    malformed := false }

/-- The outer record of `Parse pEx docNested2`. -/
def stOuter : CfrStructure :=
  { InternalId := 0, TitleId := 1, TitleNumber := 1, DivType := "",
    DivLevel := 1, Identifier := "1", NodeId := none, Heading := none,
    TextContent := none, WordCount := 0, ParentId := none, Path := "1" }

/-- The inner record of `Parse pEx docNested2`. -/
def stInner : CfrStructure :=
  { InternalId := 0, TitleId := 1, TitleNumber := 1, DivType := "",
    DivLevel := 2, Identifier := "A", NodeId := none, Heading := none,
    TextContent := none, WordCount := 0, ParentId := none, Path := "1/A" }

/-- The result of `Parse pEx docNested2`. -/
def resNested2 : ParseResult := { Structures := [stOuter, stInner], TotalWords := 0 }

/-- Two top-level elements: one with an empty identifier (path `""`) and
one whose `N` attribute itself contains a slash (path `"/A"`). -/
def docSlash : TokenizedDoc :=
  { tokens := [.start "DIV1" [], .endE "DIV1",
               .start "DIV1" [("N", "/A")], .endE "DIV1"],
    malformed := false }

/-- A document whose only element is tagged `DIVA`. -/
def docDivA : TokenizedDoc :=
  { tokens := [.start "DIVA" [("N", "x")], .endE "DIVA"], malformed := false }

/-- A document whose only element is tagged `DIV0`. -/
def docDiv0 : TokenizedDoc :=
  { tokens := [.start "DIV0" [("N", "x")], .endE "DIV0"], malformed := false }

/-- A document whose only element is tagged `DIV10`. -/
def docDiv10 : TokenizedDoc :=
  { tokens := [.start "DIV10" [("N", "x")], .chars "w", .endE "DIV10"],
    malformed := false }

/-! ### Shared lemmas about the runner -/

/-- Collector-count lemma: if every worker sends exactly one outcome, the
drained streams of a list of workers contain one outcome per item. -/
theorem flatMap_outcome_lengths {T R : Type} (worker : T → List (Emit R)) :
    ∀ items : List T, (∀ it ∈ items, outcomeCount (worker it) = 1) →
      ((items.flatMap worker).filterMap Emit.res?).length +
        ((items.flatMap worker).filterMap Emit.err?).length = items.length := by
  intro items
  induction items with
  | nil => intro _; simp
  | cons it rest ih =>
    intro hone
    have hit : outcomeCount (worker it) = 1 := hone it (List.mem_cons_self it rest)
    have hrest := ih (fun x hx => hone x (List.mem_cons_of_mem it hx))
    simp only [List.flatMap_cons, List.filterMap_append, List.length_append,
      List.length_cons]
    unfold outcomeCount at hit
    omega

/-- Permit-count invariant of the throttle: when `C > 0`, every reachable
state holds at most `C` permits. -/
theorem reachable_permits_le (C : Int) (n : Nat) (s : RunnerLtsState)
    (hreach : RunnerReachable C n s) (hC : 0 < C) :
    (permitsHeld s : Int) ≤ C := by
  induction hreach with
  | init => simp [initState, permitsHeld]; omega
  | step _ hstep ih =>
    cases hstep with
    | dispatch hu hthr =>
      have := hthr hC
      simp only [permitsHeld] at *
      push_cast at *
      omega
    | start hs =>
      simp only [permitsHeld] at *
      omega
    | finish hs =>
      simp only [permitsHeld] at *
      push_cast at *
      omega

/-- From the empty initial state no step can fire. -/
theorem reachable_zero_items (C : Int) (s : RunnerLtsState)
    (hreach : RunnerReachable C 0 s) : s = initState 0 := by
  induction hreach with
  | init => rfl
  | step _ hstep ih =>
    subst ih
    cases hstep with
    | dispatch hu _ => simp [initState] at hu
    | start hs => simp [initState] at hs
    | finish hs => simp [initState] at hs

/-! ### Shared lemmas about the parser -/

/-- Per-call shape of `parseDivElement` (cfr_parser.go:197-213): the
flattened list is the element's record followed by the flattened
descendants, and the cumulative count is the record's word count plus
the descendants' word counts — hence the sum over the whole list. -/
theorem parseDivElement_words (p : CfrParser) (startName : String)
    (attrs : List (String × String)) (divLevel : Nat) (parentId : Option Int)
    (parentPath : String) (fuel : Nat) (ts : List Token) :
    (parseDivElement p startName attrs divLevel parentId parentPath fuel ts).2.1 =
      (((parseDivElement p startName attrs divLevel parentId parentPath fuel ts).1).map
        (fun c => c.WordCount)).sum ∧
    (parseDivElement p startName attrs divLevel parentId parentPath fuel ts).1 ≠ [] := by
  cases fuel <;> simp [parseDivElement, assembleDiv]

/-- The document loop of `Parse` keeps the running total equal to the
sum of the accumulated records' word counts. -/
theorem parseLoop_total (p : CfrParser) :
    ∀ (fuel : Nat) (ts : List Token) (mal : Bool) (acc : List CfrStructure)
      (accW : Nat) (sts : List CfrStructure) (tw : Nat),
      parseLoop p fuel ts mal acc accW = .ok (sts, tw) →
      accW = (acc.map (fun c => c.WordCount)).sum →
      tw = (sts.map (fun c => c.WordCount)).sum := by
  intro fuel
  induction fuel with
  | zero =>
    intro ts mal acc accW sts tw h
    simp [parseLoop] at h
  | succ f ih =>
    intro ts mal acc accW sts tw h hacc
    cases ts with
    | nil =>
      cases mal with
      | false =>
        simp [parseLoop] at h
        obtain ⟨h1, h2⟩ := h
        subst h1; subst h2
        exact hacc
      | true => simp [parseLoop] at h
    | cons t rest =>
      cases t with
      | start name attrs =>
        simp only [parseLoop] at h
        split at h
        · refine ih _ _ _ _ _ _ h ?_
          have hw := (parseDivElement_words p name attrs (divLevelOf name) none "" f rest).1
          simp only [List.map_append, List.sum_append]
          omega
        · exact ih _ _ _ _ _ _ h hacc
      | endE name =>
        simp only [parseLoop] at h
        exact ih _ _ _ _ _ _ h hacc
      | chars s =>
        simp only [parseLoop] at h
        exact ih _ _ _ _ _ _ h hacc

/-- A stream whose tokenizer ends in an error always aborts the document
loop with the parse error, whatever was already accumulated. -/
theorem parseLoop_malformed (p : CfrParser) :
    ∀ (fuel : Nat) (ts : List Token) (acc : List CfrStructure) (accW : Nat),
      parseLoop p fuel ts true acc accW = .error "error parsing XML" := by
  intro fuel
  induction fuel with
  | zero => intro ts acc accW; simp [parseLoop]
  | succ f ih =>
    intro ts acc accW
    cases ts with
    | nil => simp [parseLoop]
    | cons t rest =>
      cases t with
      | start name attrs =>
        simp only [parseLoop]
        split
        · exact ih _ _ _
        · exact ih _ _ _
      | endE name =>
        simp only [parseLoop]
        exact ih _ _ _
      | chars s =>
        simp only [parseLoop]
        exact ih _ _ _

/-- Prepending the parent's identifier to a child's chain yields a chain
from the parent's base: `parseDivLoop` hands the current `path` to each
nested `parseDivElement`, so a chain from `mkPath base i` lifts to a
chain from `base` headed by `i`. -/
theorem ChainFrom.lift (base i : String) (s : CfrStructure)
    (h : ChainFrom (mkPath base i) s) : ChainFrom base s := by
  obtain ⟨ids, hne, hlast, hpath⟩ := h
  refine ⟨i :: ids, by simp, ?_, ?_⟩
  · cases ids with
    | nil => exact absurd rfl hne
    | cons y ys => simpa [List.getLast?_cons_cons] using hlast
  · simpa [List.foldl_cons] using hpath

/-- Structural invariant of the recursive descent: every record emitted
by `parseDivElement` carries a chain of identifiers grown by `mkPath`
from the call's parent path (the element's own identifier for the record
itself, extended chains for descendants), and its `ParentId` is `nil` —
both `Parse` (cfr_parser.go:65) and the child recursion
(cfr_parser.go:156) pass `nil` for `parentId`. -/
theorem parse_div_invariant : ∀ fuel : Nat,
    (∀ (p : CfrParser) (startName path : String) (ts : List Token)
        (h : Option String) (b : String) (cs : List CfrStructure),
      (∀ s ∈ cs, ChainFrom path s ∧ s.ParentId = none) →
      ∀ s ∈ (parseDivLoop p startName path fuel ts h b cs).2.2.1,
        ChainFrom path s ∧ s.ParentId = none) ∧
    (∀ (p : CfrParser) (startName : String) (attrs : List (String × String))
        (divLevel : Nat) (parentPath : String) (ts : List Token),
      ∀ s ∈ (parseDivElement p startName attrs divLevel none parentPath fuel ts).1,
        ChainFrom parentPath s ∧ s.ParentId = none) := by
  intro fuel
  induction fuel with
  | zero =>
    constructor
    · intro p startName path ts h b cs hcs s hs
      simp only [parseDivLoop] at hs
      exact hcs s hs
    · intro p startName attrs divLevel parentPath ts s hs
      simp only [parseDivElement, assembleDiv, List.mem_singleton] at hs
      subst hs
      exact ⟨⟨[divIdentifier attrs], by simp, by simp [buildStructure],
        by simp [buildStructure]⟩, by simp [buildStructure]⟩
  | succ f ih =>
    obtain ⟨ihLoop, ihElem⟩ := ih
    constructor
    · intro p startName path ts h b cs hcs s hs
      cases ts with
      | nil =>
        simp only [parseDivLoop] at hs
        exact hcs s hs
      | cons t rest =>
        cases t with
        | endE name =>
          simp only [parseDivLoop] at hs
          split at hs
          · exact hcs s hs
          · exact ihLoop p startName path rest h b cs hcs s hs
        | start name attrs =>
          simp only [parseDivLoop] at hs
          split at hs
          · exact ihLoop p startName path _ _ b cs hcs s hs
          · split at hs
            · refine ihLoop p startName path _ h b _ ?_ s hs
              intro x hx
              rcases List.mem_append.mp hx with hx | hx
              · exact hcs x hx
              · exact ihElem p name attrs (divLevelOf name) path rest x hx
            · exact ihLoop p startName path _ h _ cs hcs s hs
        | chars str =>
          simp only [parseDivLoop] at hs
          exact ihLoop p startName path rest h _ cs hcs s hs
    · intro p startName attrs divLevel parentPath ts s hs
      simp only [parseDivElement, assembleDiv, List.mem_cons] at hs
      rcases hs with hs | hs
      · subst hs
        exact ⟨⟨[divIdentifier attrs], by simp, by simp [buildStructure],
          by simp [buildStructure]⟩, by simp [buildStructure]⟩
      · have hchild :=
          ihLoop p startName (mkPath parentPath (divIdentifier attrs)) ts none "" []
            (by intro x hx; simp at hx) s hs
        exact ⟨ChainFrom.lift parentPath (divIdentifier attrs) s hchild.1, hchild.2⟩

/-- The document loop preserves the chain/`ParentId` invariant: every
hierarchy element is parsed with parent path `""` and `parentId` nil
(cfr_parser.go:65). -/
theorem parseLoop_invariant (p : CfrParser) :
    ∀ (fuel : Nat) (ts : List Token) (mal : Bool) (acc : List CfrStructure)
      (accW : Nat) (sts : List CfrStructure) (tw : Nat),
      parseLoop p fuel ts mal acc accW = .ok (sts, tw) →
      (∀ s ∈ acc, ChainFrom "" s ∧ s.ParentId = none) →
      ∀ s ∈ sts, ChainFrom "" s ∧ s.ParentId = none := by
  intro fuel
  induction fuel with
  | zero =>
    intro ts mal acc accW sts tw h
    simp [parseLoop] at h
  | succ f ih =>
    intro ts mal acc accW sts tw h hacc
    cases ts with
    | nil =>
      cases mal with
      | false =>
        simp [parseLoop] at h
        obtain ⟨h1, h2⟩ := h
        subst h1
        exact hacc
      | true => simp [parseLoop] at h
    | cons t rest =>
      cases t with
      | start name attrs =>
        simp only [parseLoop] at h
        split at h
        · refine ih _ _ _ _ _ _ h ?_
          intro x hx
          rcases List.mem_append.mp hx with hx | hx
          · exact hacc x hx
          · exact (parse_div_invariant f).2 p name attrs (divLevelOf name) "" rest x hx
        · exact ih _ _ _ _ _ _ h hacc
      | endE name =>
        simp only [parseLoop] at h
        exact ih _ _ _ _ _ _ h hacc
      | chars s =>
        simp only [parseLoop] at h
        exact ih _ _ _ _ _ _ h hacc

/-- Every record of a successful `Parse` carries an identifier chain
grown from the empty parent path, and a nil `ParentId`. -/
theorem parse_invariant (p : CfrParser) (d : TokenizedDoc) (res : ParseResult)
    (hok : CfrParser.Parse p d = .ok res) :
    ∀ s ∈ res.Structures, ChainFrom "" s ∧ s.ParentId = none := by
  unfold CfrParser.Parse at hok
  split at hok
  · next r heq =>
    obtain rfl : ({ Structures := r.1, TotalWords := r.2 } : ParseResult) = res :=
      by injection hok
    exact fun s hs =>
      parseLoop_invariant p _ _ _ _ _ _ _ heq (by intro x hx; simp at hx) s hs
  · exact absurd hok (by simp)

/-- On a non-empty base, folding the source's `mkPath` is exactly
separator-joining: each step appends `"/"` and the next identifier. -/
theorem foldl_mkPath_nonempty_base :
    ∀ (ids : List String) (b : String), b ≠ "" →
      ids.foldl mkPath b = joinSep "/" (b :: ids) := by
  intro ids
  induction ids with
  | nil => intro b hb; simp [joinSep]
  | cons i rest ih =>
    intro b hb
    have hb2 : b ++ "/" ++ i ≠ "" := by
      intro hc
      have hlen := congrArg String.length hc
      rw [String.length_append, String.length_append] at hlen
      have h1 : ("/" : String).length = 1 := rfl
      have h0 : ("" : String).length = 0 := rfl
      rw [h1, h0] at hlen
      omega
    have hstep : mkPath b i = b ++ "/" ++ i := by simp [mkPath, hb]
    calc (i :: rest).foldl mkPath b = rest.foldl mkPath (mkPath b i) := by
          simp [List.foldl_cons]
      _ = rest.foldl mkPath (b ++ "/" ++ i) := by rw [hstep]
      _ = joinSep "/" ((b ++ "/" ++ i) :: rest) := ih _ hb2
      _ = joinSep "/" (b :: i :: rest) := by simp [joinSep, List.foldl_cons]

/-- When the first identifier of a chain is non-empty, folding `mkPath`
from the empty parent path agrees with the spec's separator join. -/
theorem foldl_mkPath_join (ids : List String) (hne : ids ≠ [])
    (hhead : ids.head? ≠ some "") : ids.foldl mkPath "" = joinSep "/" ids := by
  cases ids with
  | nil => exact absurd rfl hne
  | cons i rest =>
    have hi : i ≠ "" := by
      intro h
      subst h
      simp at hhead
    have h0 : (i :: rest).foldl mkPath "" = rest.foldl mkPath i := by
      simp [List.foldl_cons, mkPath]
    rw [h0, foldl_mkPath_nonempty_base rest i hi]

/-- Lookup in the path map built by the first pass succeeds exactly when
some structure in the list has the looked-up path (the Go map holds the
last writer for a path, which does not affect existence). -/
theorem lookup_foldl_pathMap (k : String) :
    ∀ (l : List CfrStructure) (m : List (String × CfrStructure)),
      (List.lookup k (l.foldl (fun m s => (s.Path, s) :: m) m)).isSome ↔
        (∃ t ∈ l, t.Path = k) ∨ (List.lookup k m).isSome := by
  intro l
  induction l with
  | nil => intro m; simp
  | cons s rest ih =>
    intro m
    simp only [List.foldl_cons]
    rw [ih]
    have hcons : List.lookup k ((s.Path, s) :: m) =
        if k = s.Path then some s else List.lookup k m := by
      rw [List.lookup_cons]
      by_cases hk : k = s.Path
      · simp [hk]
      · simp [beq_false_of_ne hk, hk]
    rw [hcons]
    by_cases hk : k = s.Path
    · rw [if_pos hk]
      constructor
      · intro _
        exact Or.inl ⟨s, List.mem_cons_self s rest, hk.symm⟩
      · intro _
        exact Or.inr rfl
    · rw [if_neg hk]
      constructor
      · rintro (⟨t, ht, hp⟩ | h)
        · exact Or.inl ⟨t, List.mem_cons_of_mem s ht, hp⟩
        · exact Or.inr h
      · rintro (⟨t, ht, hp⟩ | h)
        · rcases List.mem_cons.mp ht with rfl | ht
          · exact absurd hp.symm hk
          · exact Or.inl ⟨t, ht, hp⟩
        · exact Or.inr h

/-- The truncation scan of `getParentPath` finds nothing exactly when the
path contains no separator. -/
theorem lastSlashPrefix_eq_none (cs : List Char) :
    lastSlashPrefix cs = none ↔ '/' ∉ cs := by
  induction cs with
  | nil => simp [lastSlashPrefix]
  | cons c rest ih =>
    simp only [lastSlashPrefix]
    cases h : lastSlashPrefix rest with
    | some pre =>
      have hmem : '/' ∈ rest := by
        by_contra hnot
        rw [← ih] at hnot
        rw [h] at hnot
        exact Option.some_ne_none pre hnot
      simp [List.mem_cons, hmem]
    | none =>
      have hnot : '/' ∉ rest := ih.mp h
      by_cases hc : c = '/'
      · simp [hc]
      · simp only [if_neg hc]
        simp [List.mem_cons, hnot]
        exact fun hcontra => hc hcontra.symm

/-- With a non-empty item list `Run` drains the workers' streams. -/
theorem run_ne_empty {T R : Type} (cfg : RunnerConfig) (items : List T)
    (worker : T → List (Emit R)) (hne : items ≠ []) :
    Runner.Run cfg items worker =
      { Results := (items.flatMap worker).filterMap Emit.res?
        Errors := (items.flatMap worker).filterMap Emit.err? } := by
  unfold Runner.Run
  rw [if_neg (by simpa using hne)]

/-! ### Claim theorems -/

/-- C1: for every non-empty item list of size N and every worker that
sends exactly one outcome per item (one value on the results channel or
one on the errors channel), `Runner.Run` returns a `RunResult` with
`|Results| + |Errors| = N`. -/
theorem claim_c1_run_completeness {T R : Type} (cfg : RunnerConfig) (items : List T)
    (worker : T → List (Emit R)) (hne : items ≠ [])
    (hone : ∀ it ∈ items, outcomeCount (worker it) = 1) :
    (Runner.Run cfg items worker).Results.length +
      (Runner.Run cfg items worker).Errors.length = items.length := by
  rw [run_ne_empty cfg items worker hne]
  exact flatMap_outcome_lengths worker items hone

/-- Witness for C1: two items, one success and one failure, two
outcomes in total. -/
theorem claim_c1_witness :
    (Runner.Run { MaxConcurrency := 2, LogPrefix := "t" } [1, 2] wEx).Results.length +
      (Runner.Run { MaxConcurrency := 2, LogPrefix := "t" } [1, 2] wEx).Errors.length
      = [1, 2].length :=
  claim_c1_run_completeness { MaxConcurrency := 2, LogPrefix := "t" } [1, 2] wEx
    (by decide) (by decide)

/-- C2: with `MaxConcurrency = C > 0`, in every reachable state of a run
each executing worker holds a throttle permit (acquired before it runs,
released when it completes, success or failure), at most `C` permits are
held, and hence at most `C` workers execute simultaneously. -/
theorem claim_c2_concurrency_bound (C : Int) (n : Nat) (s : RunnerLtsState)
    (hreach : RunnerReachable C n s) (hC : 0 < C) :
    s.executing ≤ permitsHeld s ∧ (permitsHeld s : Int) ≤ C ∧
      (s.executing : Int) ≤ C := by
  have hperm := reachable_permits_le C n s hreach hC
  have hexe : s.executing ≤ permitsHeld s := Nat.le_add_left _ _
  refine ⟨hexe, hperm, ?_⟩
  have hcast : (s.executing : Int) ≤ (permitsHeld s : Int) := by exact_mod_cast hexe
  omega

/-- Witness for C2: with `C = 1` and two items, the state with one
executing worker is reachable and satisfies the bound. -/
theorem claim_c2_witness :
    (RunnerLtsState.mk 0 0 1 0).executing ≤ permitsHeld (RunnerLtsState.mk 0 0 1 0) ∧
    (permitsHeld (RunnerLtsState.mk 0 0 1 0) : Int) ≤ 1 ∧
    ((RunnerLtsState.mk 0 0 1 0).executing : Int) ≤ 1 :=
  claim_c2_concurrency_bound 1 1 (RunnerLtsState.mk 0 0 1 0)
    (RunnerReachable.step
      (RunnerReachable.step RunnerReachable.init
        (RunnerStep.dispatch (initState 1) (by decide) (by decide)))
      (RunnerStep.start (RunnerLtsState.mk 0 1 0 0) (by decide)))
    (by decide)

/-- C3: for every call of `parseDivElement` the cumulative word count
equals the subtree root's own `WordCount` plus the sum over its
flattened descendants, and for every successful `Parse` the returned
total equals the sum of `WordCount` over the returned flattened list. -/
theorem claim_c3_wordcount_additivity :
    (∀ (p : CfrParser) (startName : String) (attrs : List (String × String))
        (divLevel : Nat) (parentId : Option Int) (parentPath : String)
        (fuel : Nat) (ts : List Token),
      ∃ st children,
        (parseDivElement p startName attrs divLevel parentId parentPath fuel ts).1 =
          st :: children ∧
        (parseDivElement p startName attrs divLevel parentId parentPath fuel ts).2.1 =
          st.WordCount + (children.map (fun c => c.WordCount)).sum) ∧
    (∀ (p : CfrParser) (d : TokenizedDoc) (res : ParseResult),
      CfrParser.Parse p d = .ok res →
      res.TotalWords = (res.Structures.map (fun c => c.WordCount)).sum) := by
  constructor
  · intro p startName attrs divLevel parentId parentPath fuel ts
    cases fuel <;> exact ⟨_, _, rfl, rfl⟩
  · intro p d res hok
    unfold CfrParser.Parse at hok
    split at hok
    · next r heq =>
      obtain rfl : ({ Structures := r.1, TotalWords := r.2 } : ParseResult) = res := by
        injection hok
      exact parseLoop_total p _ _ _ _ _ _ _ heq (by simp)
    · exact absurd hok (by simp)

/-- Witness for C3: spec scenario 1 — one node with three words of body
text, document total 3. -/
theorem claim_c3_witness :
    resSimple.TotalWords = (resSimple.Structures.map (fun c => c.WordCount)).sum :=
  claim_c3_wordcount_additivity.2 pEx docSimple resSimple rfl

/-- C4 (amended): every record of a successful `Parse` carries a chain
`ids` of identifiers — its ancestors' identifiers root-to-parent
followed by its own, exactly the identifiers threaded through the
recursion — such that `Path` is the fold of the source's `mkPath` over
`ids` from the empty parent path; whenever the chain's first identifier
(the root ancestor's) is non-empty, `Path` equals `ids` joined with
`"/"`.  The unamended join equation fails when the root ancestor's
identifier is empty, because `mkPath` inserts no separator after an
empty parent path (see the counterexample). -/
theorem claim_c4_path_construction (p : CfrParser) (d : TokenizedDoc)
    (res : ParseResult) (hok : CfrParser.Parse p d = .ok res) :
    ∀ s ∈ res.Structures, ∃ ids : List String,
      ids ≠ [] ∧ ids.getLast? = some s.Identifier ∧
      s.Path = ids.foldl mkPath "" ∧
      (ids.head? ≠ some "" → s.Path = joinSep "/" ids) := by
  intro s hs
  obtain ⟨⟨ids, hne, hlast, hpath⟩, -⟩ := parse_invariant p d res hok s hs
  exact ⟨ids, hne, hlast, hpath,
    fun hhead => by rw [hpath, foldl_mkPath_join ids hne hhead]⟩

/-- Counterexample for C4 as stated: in `docNested` the inner node has
ancestor identifier chain `["", "A"]` (its only ancestor is the `DIV1`
with no `N` attribute, identifier `""`), the claimed joined path is
`"/A"`, but the code assigns `"A"`. -/
theorem claim_c4_counterexample :
    (CfrParser.Parse pEx docNested).toOption.map
        (fun r => r.Structures.map (fun s => (s.Identifier, s.Path)))
      = some [("", ""), ("A", "A")] ∧
    joinSep "/" ["", "A"] = "/A" ∧ ("A" : String) ≠ "/A" := by
  refine ⟨rfl, rfl, ?_⟩
  decide

/-- Witness for C4: the inner node of spec scenario 2 has chain
`["1", "A"]` and path `"1/A"`. -/
theorem claim_c4_witness :
    ∃ ids : List String, ids ≠ [] ∧ ids.getLast? = some stInner.Identifier ∧
      stInner.Path = ids.foldl mkPath "" ∧
      (ids.head? ≠ some "" → stInner.Path = joinSep "/" ids) :=
  claim_c4_path_construction pEx docNested2 resNested2 rfl stInner (by decide)

/-- C5 (amended): after the parent-linkage pass over the flattened list
of one parsed document, a node's `ParentId` is non-nil iff its `Path`
truncated at the last `"/"` is non-empty and some node in the list has
exactly that truncated path; a node whose path has no separator — and
likewise one whose truncation is the empty string — keeps `ParentId`
nil.  The unamended claim omits the non-emptiness condition, which the
`parentPath != ""` guard of CfrStructureService.go:125 enforces (see the
counterexample). -/
theorem claim_c5_parent_linkage (p : CfrParser) (d : TokenizedDoc)
    (res : ParseResult) (hok : CfrParser.Parse p d = .ok res) :
    ∀ s ∈ res.Structures,
      (((linkNode (buildPathMap res.Structures) s).ParentId ≠ none) ↔
        (getParentPath s.Path ≠ "" ∧
          ∃ t ∈ res.Structures, t.Path = getParentPath s.Path)) ∧
      ('/' ∉ s.Path.toList →
        (linkNode (buildPathMap res.Structures) s).ParentId = none) := by
  intro s hs
  obtain ⟨-, hnone⟩ := parse_invariant p d res hok s hs
  constructor
  · by_cases hpp : getParentPath s.Path = ""
    · have hval : (linkNode (buildPathMap res.Structures) s).ParentId = none := by
        simp [linkNode, hpp, hnone]
      constructor
      · intro hcon
        exact absurd hval hcon
      · rintro ⟨hne2, -⟩
        exact absurd hpp hne2
    · cases hlu : List.lookup (getParentPath s.Path) (buildPathMap res.Structures) with
      | some parent =>
        have hex : ∃ t ∈ res.Structures, t.Path = getParentPath s.Path := by
          have hsome := (lookup_foldl_pathMap (getParentPath s.Path) res.Structures []).mp
            (by unfold buildPathMap at hlu; rw [hlu]; rfl)
          rcases hsome with h | h
          · exact h
          · simp at h
        have hval : (linkNode (buildPathMap res.Structures) s).ParentId =
            some parent.InternalId := by
          simp [linkNode, hpp, hlu]
        constructor
        · intro _
          exact ⟨hpp, hex⟩
        · intro _
          rw [hval]
          simp
      | none =>
        have hnex : ¬ ∃ t ∈ res.Structures, t.Path = getParentPath s.Path := by
          intro hex
          have hsome := (lookup_foldl_pathMap (getParentPath s.Path) res.Structures []).mpr
            (Or.inl hex)
          unfold buildPathMap at hlu
          rw [hlu] at hsome
          simp at hsome
        have hval : (linkNode (buildPathMap res.Structures) s).ParentId = none := by
          simp [linkNode, hpp, hlu, hnone]
        constructor
        · intro hcon
          exact absurd hval hcon
        · rintro ⟨-, hex⟩
          exact absurd hex hnex
  · intro hnoslash
    have hpp : getParentPath s.Path = "" := by
      unfold getParentPath
      rw [(lastSlashPrefix_eq_none s.Path.toList).mpr hnoslash]
    simp [linkNode, hpp, hnone]

/-- Counterexample for C5 as stated: in `docSlash` the node with path
`"/A"` truncates to `""`, and the list does contain a node with path
`""`, yet after the linkage pass every `ParentId` is still nil — the
code skips the lookup for an empty truncation. -/
theorem claim_c5_counterexample :
    (CfrParser.Parse pEx docSlash).toOption.map
        (fun r => ((linkParents r.Structures).map (fun s => s.ParentId),
                   r.Structures.map (fun s => s.Path)))
      = some ([none, none], ["", "/A"]) ∧
    getParentPath "/A" = "" ∧
    (∃ q ∈ ["", "/A"], q = getParentPath "/A") := by
  refine ⟨rfl, rfl, ?_⟩
  exact ⟨"", by simp, rfl⟩

/-- Witness for C5: the inner node of spec scenario 2 is linked to the
outer node (truncation `"1"`, present), so its `ParentId` is non-nil. -/
theorem claim_c5_witness :
    (((linkNode (buildPathMap resNested2.Structures) stInner).ParentId ≠ none) ↔
      (getParentPath stInner.Path ≠ "" ∧
        ∃ t ∈ resNested2.Structures, t.Path = getParentPath stInner.Path)) ∧
    ('/' ∉ stInner.Path.toList →
      (linkNode (buildPathMap resNested2.Structures) stInner).ParentId = none) :=
  claim_c5_parent_linkage pEx docNested2 resNested2 rfl stInner (by decide)

/-- C6: for every token stream whose tokenizer terminates with an error
(malformed or truncated markup, including the "unexpected EOF" the Go
decoder reports for unterminated elements), `Parse` aborts with the
parse error and returns no structure list — the `Except.error` result
carries no partial output. -/
theorem claim_c6_malformed_aborts (p : CfrParser) (ts : List Token) :
    CfrParser.Parse p { tokens := ts, malformed := true } =
      .error "error parsing XML" := by
  simp [CfrParser.Parse, parseLoop_malformed]

/-- C7 (amended): a negative `MaxConcurrency` is not rejected anywhere —
`NewRunner` stores it unvalidated, the functional aggregate of `Run` is
the same as with `MaxConcurrency = 0`, and in the transition system a
negative bound imposes exactly the same (absent) throttle constraint as
`0`: workers are dispatched for every item.  The claimed rejection
before dispatch does not exist in the code (see the counterexample). -/
theorem claim_c7_negative_concurrency {T R : Type} (cfg : RunnerConfig)
    (items : List T) (worker : T → List (Emit R))
    (h : cfg.MaxConcurrency < 0) :
    (NewRunner cfg).MaxConcurrency = cfg.MaxConcurrency ∧
    Runner.Run cfg items worker =
      Runner.Run { cfg with MaxConcurrency := 0 } items worker ∧
    ∀ s t : RunnerLtsState,
      RunnerStep cfg.MaxConcurrency s t ↔ RunnerStep 0 s t := by
  refine ⟨?_, rfl, ?_⟩
  · unfold NewRunner
    split <;> rfl
  · intro s t
    constructor
    · intro hstep
      cases hstep with
      | dispatch hu hthr => exact RunnerStep.dispatch _ hu (by intro h0; omega)
      | start hs => exact RunnerStep.start _ hs
      | finish hs => exact RunnerStep.finish _ hs
    · intro hstep
      cases hstep with
      | dispatch hu hthr => exact RunnerStep.dispatch _ hu (by intro h0; omega)
      | start hs => exact RunnerStep.start _ hs
      | finish hs => exact RunnerStep.finish _ hs

/-- Counterexample for C7 as stated: with `MaxConcurrency = -1` a worker
is dispatched and delivers its result, and the state in which a worker
is executing is reachable — work is not rejected. -/
theorem claim_c7_counterexample :
    (Runner.Run { MaxConcurrency := -1, LogPrefix := "" } [(0 : Nat)]
        (fun _ => [Emit.res (42 : Nat)])).Results = [42] ∧
    RunnerReachable (-1) 1
      { undispatched := 0, spawned := 0, executing := 1, finished := 0 } := by
  constructor
  · rfl
  · exact RunnerReachable.step
      (RunnerReachable.step RunnerReachable.init
        (RunnerStep.dispatch (initState 1) (by decide) (by decide)))
      (RunnerStep.start (RunnerLtsState.mk 0 1 0 0) (by decide))

/-- Witness for C7's amended statement at a concrete negative
configuration. -/
theorem claim_c7_witness :
    (NewRunner { MaxConcurrency := -1, LogPrefix := "" }).MaxConcurrency =
      ({ MaxConcurrency := -1, LogPrefix := "" } : RunnerConfig).MaxConcurrency ∧
    Runner.Run { MaxConcurrency := -1, LogPrefix := "" } [(5 : Nat)] wEx =
      Runner.Run { MaxConcurrency := 0, LogPrefix := "" } [(5 : Nat)] wEx ∧
    ∀ s t : RunnerLtsState,
      RunnerStep ({ MaxConcurrency := -1, LogPrefix := "" } : RunnerConfig).MaxConcurrency s t ↔
        RunnerStep 0 s t :=
  claim_c7_negative_concurrency { MaxConcurrency := -1, LogPrefix := "" }
    [(5 : Nat)] wEx (by decide)

/-- C8: `Run` on an empty item list returns empty `Results` and empty
`Errors` (runner.go:43-48), and with zero items no worker goroutine is
ever spawned, started, or finished in any reachable state. -/
theorem claim_c8_empty_input {T R : Type} (cfg : RunnerConfig)
    (worker : T → List (Emit R)) :
    Runner.Run cfg ([] : List T) worker = { Results := [], Errors := [] } ∧
    ∀ (C : Int) (s : RunnerLtsState), RunnerReachable C 0 s →
      s.spawned = 0 ∧ s.executing = 0 ∧ s.finished = 0 := by
  constructor
  · rfl
  · intro C s hreach
    have hinit := reachable_zero_items C s hreach
    subst hinit
    exact ⟨rfl, rfl, rfl⟩

/-- Witness for C8 at a concrete configuration and worker. -/
theorem claim_c8_witness :
    Runner.Run { MaxConcurrency := 5, LogPrefix := "" } ([] : List Nat) wEx =
      { Results := [], Errors := [] } ∧
    ((initState 0).spawned = 0 ∧ (initState 0).executing = 0 ∧
      (initState 0).finished = 0) :=
  ⟨(claim_c8_empty_input { MaxConcurrency := 5, LogPrefix := "" } wEx).1,
   (claim_c8_empty_input { MaxConcurrency := 5, LogPrefix := "" } wEx).2 3
     (initState 0) RunnerReachable.init⟩

/-- C9: `Parse` is deterministic — it is a pure function of the parser
state and the document, with no shared mutable state, map iteration, or
goroutines, so equal inputs give equal results (equal structure lists,
fields, order, and totals). -/
theorem claim_c9_parse_deterministic (p1 p2 : CfrParser) (d1 d2 : TokenizedDoc)
    (hp : p1 = p2) (hd : d1 = d2) :
    CfrParser.Parse p1 d1 = CfrParser.Parse p2 d2 := by
  subst hp
  subst hd
  rfl

/-- Witness for C9 at a concrete document. -/
theorem claim_c9_witness :
    CfrParser.Parse pEx docSimple = CfrParser.Parse pEx docSimple :=
  claim_c9_parse_deterministic pEx pEx docSimple docSimple rfl rfl

/-- C10: the hierarchy test checks only a `DIV` prefix and byte length 4
with no digit check: `DIV0` and `DIVA` are accepted and yield records
with `DivLevel` 0 and 17 (both outside 1-9), while `DIV10` is never
recognized and yields no record. -/
theorem claim_c10_div_tag_recognition :
    isHierarchyTag "DIV0" = true ∧ isHierarchyTag "DIVA" = true ∧
    isHierarchyTag "DIV10" = false ∧
    (CfrParser.Parse pEx docDivA).toOption.map
        (fun r => r.Structures.map (fun s => s.DivLevel)) = some [17] ∧
    (CfrParser.Parse pEx docDiv0).toOption.map
        (fun r => r.Structures.map (fun s => s.DivLevel)) = some [0] ∧
    ¬ (1 ≤ 17 ∧ 17 ≤ 9) ∧ ¬ (1 ≤ 0 ∧ 0 ≤ 9) ∧
    (CfrParser.Parse pEx docDiv10).toOption.map
        (fun r => r.Structures) = some [] := by
  refine ⟨rfl, rfl, rfl, rfl, rfl, by decide, by decide, rfl⟩
